import Mathlib

/-!
Verification of the access-request validation core of the repository
(`lib/services/access_request.go`): the policy aggregator
(`requestValidator.push`, `CanRequestRole`, `SystemAnnotations`), the
orchestration routine `ValidateAccessRequest`, the access-request state
machine (`AccessRequestV3.SetState`), and the filter map encoding
(`AccessRequestFilter.IntoMap` / `FromMap`).

Go maps `map[string][]string` are embedded as association lists with unique
keys (`List (String × List String)`); Go's in-place mutation of the request
is embedded as a function returning the updated record; fallible Go code
returning `error` is embedded in `Except Err`.
-/

namespace Teleport

/-- Error kinds produced by the validation core: `trace.BadParameter` and
`trace.NotFound` from the source. -/
inductive Err where
  | badParameter (msg : String)
  | notFound (msg : String)
deriving DecidableEq

/-- Modelled from the spec: the `RequestState` enumeration (a generated
protobuf type, not under `src/`): state is one of NONE, PENDING, APPROVED,
DENIED. -/
inductive RequestState where
  | NONE
  | PENDING
  | APPROVED
  | DENIED
deriving DecidableEq

/-- Modelled from the spec: the protobuf `String()` form of a state, used by
`RequestState.Parse` and `AccessRequestFilter.IntoMap`. -/
def RequestState.stateName : RequestState → String
  | .NONE => "NONE"
  | .PENDING => "PENDING"
  | .APPROVED => "APPROVED"
  | .DENIED => "DENIED"

def RequestState.IsNone (s : RequestState) : Bool :=
  s == RequestState.NONE

def RequestState.IsPending (s : RequestState) : Bool :=
  s == RequestState.PENDING

def RequestState.IsApproved (s : RequestState) : Bool :=
  s == RequestState.APPROVED

def RequestState.IsDenied (s : RequestState) : Bool :=
  s == RequestState.DENIED

/-- The `stateVariants` array from the source: the expected variants of
`RequestState`, in declaration order. -/
def stateVariants : List RequestState :=
  [RequestState.NONE, RequestState.PENDING, RequestState.APPROVED, RequestState.DENIED]

/-- `RequestState.Parse` from the source: interpret a string as the first
variant whose `String()` form equals it, else BadParameter. -/
def RequestState.parse (val : String) : Except Err RequestState :=
  match stateVariants.find? (fun st => st.stateName == val) with
  | some st => Except.ok st
  | none => Except.error (Err.badParameter ("unknown request state: " ++ val))

/-- Key values for the map encoding of a request filter (source constants
`keyID`, `keyUser`, `keyState`). -/
def keyID : String := "id"

def keyUser : String := "user"

def keyState : String := "state"

/-- `AccessRequestFilter` from the source: ID, User and State fields. -/
structure AccessRequestFilter where
  ID : String
  User : String
  State : RequestState
deriving DecidableEq

/-- The zero value of `AccessRequestFilter` (Go zero strings and the zero
protobuf enum value NONE). -/
def zeroFilter : AccessRequestFilter :=
  { ID := "", User := "", State := RequestState.NONE }

/-- `AccessRequestFilter.IntoMap` from the source: emit each non-zero field
under its key. The Go map is embedded as a list of key/value entries. -/
def AccessRequestFilter.IntoMap (f : AccessRequestFilter) : List (String × String) :=
  (if f.ID != "" then [(keyID, f.ID)] else [])
    ++ (if f.User != "" then [(keyUser, f.User)] else [])
    ++ (if !f.State.IsNone then [(keyState, f.State.stateName)] else [])

/-- One iteration of the `FromMap` loop: dispatch on the entry's key,
failing on an unknown key or an unparsable state. -/
def AccessRequestFilter.fromMapEntry (f : AccessRequestFilter) (kv : String × String) :
    Except Err AccessRequestFilter :=
  if kv.1 == keyID then Except.ok { f with ID := kv.2 }
  else if kv.1 == keyUser then Except.ok { f with User := kv.2 }
  else if kv.1 == keyState then
    match RequestState.parse kv.2 with
    | Except.ok st => Except.ok { f with State := st }
    | Except.error e => Except.error e
  else Except.error (Err.badParameter ("unknown filter key " ++ kv.1))

/-- `AccessRequestFilter.FromMap` from the source: fold the entry dispatch
over the map's entries. -/
def AccessRequestFilter.FromMap (f : AccessRequestFilter) (m : List (String × String)) :
    Except Err AccessRequestFilter :=
  m.foldlM AccessRequestFilter.fromMapEntry f

/-- `AccessRequestFilter.Equals` from the source: fieldwise equality. -/
def AccessRequestFilter.Equals (f o : AccessRequestFilter) : Bool :=
  f.ID == o.ID && f.User == o.User && f.State == o.State

/-- `Metadata` restricted to the field the validation core reads. -/
structure Metadata where
  Name : String
deriving DecidableEq

/-- `AccessRequestSpecV3` from the source. Timestamps are abstracted to
`Nat`; the validation core never inspects them. -/
structure AccessRequestSpecV3 where
  User : String
  Roles : List String
  State : RequestState
  Created : Nat
  Expires : Nat
  RequestReason : String
  ResolveReason : String
  ResolveAnnotations : List (String × List String)
  SystemAnnotations : List (String × List String)
deriving DecidableEq

/-- `AccessRequestV3` from the source. -/
structure AccessRequestV3 where
  Kind : String
  SubKind : String
  Version : String
  Metadata : Metadata
  Spec : AccessRequestSpecV3
deriving DecidableEq

def AccessRequestV3.GetState (r : AccessRequestV3) : RequestState :=
  r.Spec.State

def AccessRequestV3.GetRoles (r : AccessRequestV3) : List String :=
  r.Spec.Roles

/-- `AccessRequestV3.SetRoles` from the source (in-place mutation embedded
as a record update). -/
def AccessRequestV3.SetRoles (r : AccessRequestV3) (roles : List String) : AccessRequestV3 :=
  { r with Spec := { r.Spec with Roles := roles } }

/-- `AccessRequestV3.SetSystemAnnotations` from the source. -/
def AccessRequestV3.SetSystemAnnotations (r : AccessRequestV3)
    (anns : List (String × List String)) : AccessRequestV3 :=
  { r with Spec := { r.Spec with SystemAnnotations := anns } }

/-- `AccessRequestV3.SetState` from the source: once DENIED, only a repeated
DENIED transition is accepted; otherwise the state is overwritten. -/
def AccessRequestV3.SetState (r : AccessRequestV3) (state : RequestState) :
    Except Err AccessRequestV3 :=
  if r.Spec.State.IsDenied then
    if state.IsDenied then Except.ok r
    else Except.error (Err.badParameter
      ("cannot set request-state \"" ++ state.stateName ++ "\" (already denied)"))
  else Except.ok { r with Spec := { r.Spec with State := state } }

/-- Modelled from the spec: the Pattern Matcher's pattern source strings
(`lib/utils/parse`, not under `src/`). A pattern is an exact literal, a glob
in which a single star matches any substring, or a malformed anchored regex
on which matcher construction fails. Backreference-free anchored regexes
beyond these forms are not modelled; no claim depends on them. -/
inductive PatternExpr where
  | lit (s : String)
  | glob (pre post : String)
  | malformed (s : String)
deriving DecidableEq

/-- Modelled from the spec: a successfully constructed matcher (immutable,
reusable). -/
inductive Matcher where
  | lit (s : String)
  | glob (pre post : String)
deriving DecidableEq

/-- Modelled from the spec: `Match(candidate)`: literal equality, or for a
glob the candidate decomposes as the pre part, any substring, and the post
part. -/
def Matcher.Match : Matcher → String → Bool
  | Matcher.lit p, n => p == n
  | Matcher.glob pre post, n =>
      decide (pre.length + post.length ≤ n.length) && n.startsWith pre && n.endsWith post

/-- Modelled from the spec: `parse.NewMatcher` (not under `src/`):
construction succeeds on well-formed patterns and fails with a
BadParameter-class error on a malformed regex. -/
def NewMatcher : PatternExpr → Except Err Matcher
  | PatternExpr.lit s => Except.ok (Matcher.lit s)
  | PatternExpr.glob pre post => Except.ok (Matcher.glob pre post)
  | PatternExpr.malformed s =>
      Except.error (Err.badParameter ("failed to parse regexp " ++ s))

/-- A user's trait bindings: trait name to its ordered bound values. -/
abbrev Traits := List (String × List String)

/-- Look a trait name up in the bindings. -/
def traitsGet (ts : Traits) (k : String) : Option (List String) :=
  (ts.find? (fun p => p.1 == k)).map Prod.snd

/-- Modelled from the spec: a templated annotation value string: either a
literal (expands to itself) or a reference to a trait (expands to all its
bound values). -/
inductive ValueTemplate where
  | lit (s : String)
  | traitRef (nm : String)
deriving DecidableEq

/-- Modelled from the spec: the Trait Interpolator's `Expand`
(`applyValueTraits` in the surrounding system, not under `src/`): a literal
yields itself, a trait reference yields the trait's bound values, and a
reference to an unbound trait yields no result, reported as an error whose
severity the caller decides. -/
def applyValueTraits (t : ValueTemplate) (traits : Traits) : Except Err (List String) :=
  match t with
  | ValueTemplate.lit s => Except.ok [s]
  | ValueTemplate.traitRef nm =>
      match traitsGet traits nm with
      | some vs => Except.ok vs
      | none => Except.error (Err.badParameter ("unknown trait: " ++ nm))

/-- A claim-to-role mapping from a role's access-request conditions (source
field `ClaimsToRoles`, converted by `GetTraitMappings`). -/
structure TraitMapping where
  Trait : String
  Value : String
  Roles : List PatternExpr
deriving DecidableEq

/-- Modelled from the spec: `ExpandTraitMapping` / `TraitsToRoles` (not
under `src/`): a value pattern of a single star matches every bound value,
otherwise literal comparison; a mapping whose claim has a matching bound
value contributes the union of its role templates. Regex value patterns
with capture groups are not modelled; no claim depends on them. -/
def traitsToRoles (tms : List TraitMapping) (traits : Traits) : List PatternExpr :=
  tms.flatMap (fun tm =>
    match traitsGet traits tm.Trait with
    | some vals =>
        if vals.any (fun v => tm.Value == "*" || tm.Value == v) then tm.Roles else []
    | none => [])

/-- `AccessRequestConditions` from the source: role-name patterns,
claims-to-roles mappings, and annotation templates keyed by annotation
key. -/
structure AccessRequestConditions where
  Roles : List PatternExpr
  ClaimsToRoles : List TraitMapping
  Annotations : List (String × List ValueTemplate)
deriving DecidableEq

/-- A role as consumed by the validation core: name, the `RequestAccess`
option, and the allow and deny access-request conditions. -/
structure Role where
  name : String
  requestAccess : String
  allow : AccessRequestConditions
  deny : AccessRequestConditions
deriving DecidableEq

def RequestStrategyOptional : String := "optional"

def RequestStrategyReason : String := "reason"

def RequestStrategyAlways : String := "always"

/-- A user as consumed by the validation core: held role names and trait
bindings. -/
structure User where
  roles : List String
  traits : Traits
deriving DecidableEq

/-- `UserAndRoleGetter` from the source: fetch a user by name, fetch a role
by name, list every role. -/
structure UserAndRoleGetter where
  getUser : String → Except Err User
  getRole : String → Except Err Role
  getRoles : Except Err (List Role)

/-- `requestValidator` from the source. The nested `Roles.Allow/Deny` and
`Annotations.Allow/Deny` pairs are flattened into four fields; the Go maps
are association lists with unique keys. -/
structure requestValidator where
  traits : Traits
  state : RequestState
  rolesAllow : List Matcher
  rolesDeny : List Matcher
  annotationsAllow : List (String × List String)
  annotationsDeny : List (String × List String)
deriving DecidableEq

/-- `newRequestValidator` from the source. The source allocates the two
annotation maps only in the PENDING state; a nil Go map and an empty one
are observationally equal here, so both start empty. -/
def newRequestValidator (traits : Traits) (state : RequestState) : requestValidator :=
  { traits := traits, state := state, rolesAllow := [], rolesDeny := []
    annotationsAllow := [], annotationsDeny := [] }

/-- Go map read `m[k]` (the zero slice when the key is absent). -/
def amGet (m : List (String × List String)) (k : String) : List String :=
  match m.find? (fun p => p.1 == k) with
  | some p => p.2
  | none => []

/-- Go map write `m[k] = append(m[k], vs...)`: extend the existing entry or
create one. -/
def amAppend (m : List (String × List String)) (k : String) (vs : List String) :
    List (String × List String) :=
  if m.any (fun p => p.1 == k) then
    m.map (fun p => if p.1 == k then (p.1, p.2 ++ vs) else p)
  else m ++ [(k, vs)]

/-- The labelled inner loop of `push` over one key's templates: expand each
template against the traits, silently skipping any that fails. -/
def expandTemplates (tmpls : List ValueTemplate) (traits : Traits) : List String :=
  tmpls.flatMap (fun t =>
    match applyValueTraits t traits with
    | Except.ok vs => vs
    | Except.error _ => [])

/-- The annotation-accumulation loop of `push` for one side's annotation
templates. -/
def pushAnnotations (acc : List (String × List String))
    (anns : List (String × List ValueTemplate)) (traits : Traits) :
    List (String × List String) :=
  anns.foldl (fun acc kv => amAppend acc kv.1 (expandTemplates kv.2 traits)) acc

/-- The matcher-construction part of `push` for one side's conditions:
matchers from the literal role patterns, then matchers from the expanded
trait mappings; the first construction failure aborts. -/
def conditionMatchers (c : AccessRequestConditions) (traits : Traits) :
    Except Err (List Matcher) := do
  let a ← c.Roles.mapM NewMatcher
  let b ← (traitsToRoles c.ClaimsToRoles traits).mapM NewMatcher
  pure (a ++ b)

/-- `requestValidator.push` from the source: append the role's deny and
allow matchers, and, while PENDING, accumulate the role's deny and allow
annotation values. A matcher-construction failure aborts with that error
(the partially updated Go receiver is unobservable, since the caller
discards the validator on error). -/
def push (m : requestValidator) (role : Role) : Except Err requestValidator := do
  let dm ← conditionMatchers role.deny m.traits
  let am ← conditionMatchers role.allow m.traits
  pure { m with
    rolesDeny := m.rolesDeny ++ dm
    rolesAllow := m.rolesAllow ++ am
    annotationsDeny :=
      if m.state.IsPending then pushAnnotations m.annotationsDeny role.deny.Annotations m.traits
      else m.annotationsDeny
    annotationsAllow :=
      if m.state.IsPending then pushAnnotations m.annotationsAllow role.allow.Annotations m.traits
      else m.annotationsAllow }

/-- Push a sequence of roles into a validator, failing on the first failing
push. -/
def pushList (m : requestValidator) (roles : List Role) : Except Err requestValidator :=
  roles.foldlM push m

/-- `requestValidator.CanRequestRole` from the source: denied when any deny
matcher matches, otherwise allowed exactly when some allow matcher
matches. -/
def CanRequestRole (m : requestValidator) (nm : String) : Bool :=
  if m.rolesDeny.any (fun d => d.Match nm) then false
  else m.rolesAllow.any (fun a => a.Match nm)

/-- The body of `requestValidator.SystemAnnotations`, generalized over the
allow accumulator for induction: keep, for each allow entry, the values not
present in the deny values for the same key, dropping the entry when
nothing survives. -/
def sysAnnAux (deny : List (String × List String)) (allow : List (String × List String)) :
    List (String × List String) :=
  allow.filterMap (fun kv =>
    if (kv.2.filter (fun v => !(amGet deny kv.1).contains v)).isEmpty then none
    else some (kv.1, kv.2.filter (fun v => !(amGet deny kv.1).contains v)))

/-- `requestValidator.SystemAnnotations` from the source. -/
def SystemAnnotations (m : requestValidator) : List (String × List String) :=
  sysAnnAux m.annotationsDeny m.annotationsAllow

/-- The user-role loop of `ValidateAccessRequest`: fetch each held role,
push it, and accumulate whether any held role's `RequestAccess` option is
the reason strategy. -/
def pushRoles (getter : UserAndRoleGetter) (v : requestValidator) (rr : Bool) :
    List String → Except Err (requestValidator × Bool)
  | [] => Except.ok (v, rr)
  | nm :: rest =>
    match getter.getRole nm with
    | Except.error e => Except.error e
    | Except.ok role =>
      match push v role with
      | Except.error e => Except.error e
      | Except.ok v' =>
          pushRoles getter v' (rr || (role.requestAccess == RequestStrategyReason)) rest

/-- The wildcard test of `ValidateAccessRequest`: the role list is exactly
the single entry star. -/
def isWildcard (roles : List String) : Bool :=
  match roles with
  | [r] => r == "*"
  | _ => false

/-- The wildcard expansion of `ValidateAccessRequest`: every catalogue role
name that is not already held and that the aggregator approves. -/
def expandWildcard (user : User) (allRoles : List Role) (v : requestValidator) : List String :=
  allRoles.filterMap (fun role =>
    if !(user.roles.contains role.name) && CanRequestRole v role.name then some role.name
    else none)

/-- `ValidateAccessRequest` from the source: fetch the user, push every held
role, enforce the reason requirement, resolve a wildcard request, check
every requested role, and attach system annotations while PENDING. In-place
mutation of the request is embedded as returning the updated request. -/
def ValidateAccessRequest (getter : UserAndRoleGetter) (req : AccessRequestV3)
    (expandRoles : Bool) : Except Err AccessRequestV3 :=
  match getter.getUser req.Spec.User with
  | Except.error e => Except.error e
  | Except.ok user =>
    match pushRoles getter (newRequestValidator user.traits req.Spec.State) false user.roles with
    | Except.error e => Except.error e
    | Except.ok (validator, requireReason) =>
      if requireReason && (req.Spec.RequestReason == "") then
        Except.error (Err.badParameter "request reason must be specified")
      else
        match (if isWildcard req.Spec.Roles then
                (if !expandRoles then
                  Except.error (Err.badParameter "unexpected wildcard access request")
                 else
                  match getter.getRoles with
                  | Except.error e => Except.error e
                  | Except.ok allRoles =>
                      Except.ok (req.SetRoles (expandWildcard user allRoles validator)))
               else Except.ok req : Except Err AccessRequestV3) with
        | Except.error e => Except.error e
        | Except.ok req1 =>
          match req1.Spec.Roles.find? (fun nm => !CanRequestRole validator nm) with
          | some nm =>
              Except.error (Err.badParameter
                ("user \"" ++ req1.Spec.User ++ "\" cannot request/assume role \"" ++ nm ++ "\""))
          | none =>
              Except.ok (if req1.Spec.State.IsPending then
                  req1.SetSystemAnnotations (SystemAnnotations validator)
                else req1)

/-! ### Fixtures used by the witness theorems -/

/-- A role allowing exactly the literal role name `dev-infra`. -/
def roleDev : Role :=
  { name := "roleDev", requestAccess := "optional"
    allow := { Roles := [PatternExpr.lit "dev-infra"], ClaimsToRoles := [], Annotations := [] }
    deny := { Roles := [], ClaimsToRoles := [], Annotations := [] } }

/-- The validator state reached by pushing `roleDev` into a fresh PENDING
validator with no traits. -/
def valDev : requestValidator :=
  { traits := [], state := RequestState.PENDING
    rolesAllow := [Matcher.lit "dev-infra"], rolesDeny := []
    annotationsAllow := [], annotationsDeny := [] }

/-- A request already in the DENIED state. -/
def reqDenied : AccessRequestV3 :=
  { Kind := "access_request", SubKind := "", Version := "v3"
    Metadata := { Name := "cd54c349-3a43-4813-b1db-057ff0e35e9e" }
    Spec := { User := "alice", Roles := ["dev-infra"], State := RequestState.DENIED
              Created := 0, Expires := 0, RequestReason := "", ResolveReason := ""
              ResolveAnnotations := [], SystemAnnotations := [] } }

/-- A fresh PENDING validator with no traits. -/
def valPend : requestValidator := newRequestValidator [] RequestState.PENDING

/-- A role whose allow annotations reference an unbound trait. -/
def roleAnn : Role :=
  { name := "roleAnn", requestAccess := "optional"
    allow := { Roles := [], ClaimsToRoles := []
               Annotations := [("team", [ValueTemplate.traitRef "team"])] }
    deny := { Roles := [], ClaimsToRoles := [], Annotations := [] } }

/-- A role denying exactly the literal role name `dev-secret`. -/
def roleSecret : Role :=
  { name := "roleSecret", requestAccess := "optional"
    allow := { Roles := [], ClaimsToRoles := [], Annotations := [] }
    deny := { Roles := [PatternExpr.lit "dev-secret"], ClaimsToRoles := [], Annotations := [] } }

/-- The validator state reached by pushing `roleDev` and `roleSecret` (in
either order) into a fresh PENDING validator with no traits. -/
def valBoth : requestValidator :=
  { traits := [], state := RequestState.PENDING
    rolesAllow := [Matcher.lit "dev-infra"], rolesDeny := [Matcher.lit "dev-secret"]
    annotationsAllow := [], annotationsDeny := [] }

/-- The validator state underlying the C3 witness. -/
def valAnn : requestValidator :=
  { traits := [], state := RequestState.PENDING
    rolesAllow := [], rolesDeny := []
    annotationsAllow := [("team", ["infra", "sec"])], annotationsDeny := [("team", ["sec"])] }


/-- The role `base`: held by alice, allows requesting `dev-infra`. -/
def roleBase : Role :=
  { name := "base", requestAccess := "optional"
    allow := { Roles := [PatternExpr.lit "dev-infra"], ClaimsToRoles := [], Annotations := [] }
    deny := { Roles := [], ClaimsToRoles := [], Annotations := [] } }

/-- The catalogue entry for the requestable role `dev-infra`. -/
def roleCatDev : Role :=
  { name := "dev-infra", requestAccess := "optional"
    allow := { Roles := [], ClaimsToRoles := [], Annotations := [] }
    deny := { Roles := [], ClaimsToRoles := [], Annotations := [] } }

/-- A role whose `RequestAccess` option is the reason strategy. -/
def roleNeedsReason : Role :=
  { name := "rr", requestAccess := "reason"
    allow := { Roles := [], ClaimsToRoles := [], Annotations := [] }
    deny := { Roles := [], ClaimsToRoles := [], Annotations := [] } }

/-- A user holding `base`, with no traits. -/
def userAlice : User := { roles := ["base"], traits := [] }

/-- A user holding the reason-requiring role. -/
def userBob : User := { roles := ["rr"], traits := [] }

/-- A concrete user-and-role store. -/
def getterW : UserAndRoleGetter :=
  { getUser := fun nm =>
      if nm == "alice" then Except.ok userAlice
      else if nm == "bob" then Except.ok userBob
      else Except.error (Err.notFound nm)
    getRole := fun nm =>
      if nm == "base" then Except.ok roleBase
      else if nm == "rr" then Except.ok roleNeedsReason
      else Except.error (Err.notFound nm)
    getRoles := Except.ok [roleBase, roleCatDev] }

/-- A pending wildcard request by alice. -/
def reqWild : AccessRequestV3 :=
  { Kind := "access_request", SubKind := "", Version := "v3"
    Metadata := { Name := "7c5bd221-8fb3-4a2f-b1cb-dfa2e3ba2a10" }
    Spec := { User := "alice", Roles := ["*"], State := RequestState.PENDING
              Created := 0, Expires := 0, RequestReason := "", ResolveReason := ""
              ResolveAnnotations := [], SystemAnnotations := [] } }

/-- A pending request by bob with an empty reason. -/
def reqBob : AccessRequestV3 :=
  { Kind := "access_request", SubKind := "", Version := "v3"
    Metadata := { Name := "9d31a5a4-5f02-44d3-9353-e3c1b46a0d17" }
    Spec := { User := "bob", Roles := ["dev-infra"], State := RequestState.PENDING
              Created := 0, Expires := 0, RequestReason := "", ResolveReason := ""
              ResolveAnnotations := [], SystemAnnotations := [] } }

/-- A pending explicit request by alice for `dev-infra`. -/
def reqOk : AccessRequestV3 :=
  { Kind := "access_request", SubKind := "", Version := "v3"
    Metadata := { Name := "41f6ae3e-6e85-46a6-84a8-aa0db1b10c2b" }
    Spec := { User := "alice", Roles := ["dev-infra"], State := RequestState.PENDING
              Created := 0, Expires := 0, RequestReason := "", ResolveReason := ""
              ResolveAnnotations := [], SystemAnnotations := [] } }

/-! ### Theorems -/

/-- Dissects a successful `push`: the matcher constructions for both sides
succeeded, the traits and state are unchanged, and each matcher list is the
old one extended with the role's contribution. -/
theorem push_ok_elim {m : requestValidator} {role : Role} {w : requestValidator}
    (h : push m role = Except.ok w) :
    ∃ dm am, conditionMatchers role.deny m.traits = Except.ok dm ∧
      conditionMatchers role.allow m.traits = Except.ok am ∧
      w.traits = m.traits ∧ w.state = m.state ∧
      w.rolesDeny = m.rolesDeny ++ dm ∧ w.rolesAllow = m.rolesAllow ++ am ∧
      w.annotationsAllow = (if m.state.IsPending then
        pushAnnotations m.annotationsAllow role.allow.Annotations m.traits
      else m.annotationsAllow) ∧
      w.annotationsDeny = (if m.state.IsPending then
        pushAnnotations m.annotationsDeny role.deny.Annotations m.traits
      else m.annotationsDeny) := by
  unfold push at h
  cases hd : conditionMatchers role.deny m.traits with
  | error e =>
    rw [hd] at h
    simp [Bind.bind, Except.bind] at h
  | ok dm =>
    rw [hd] at h
    cases ha : conditionMatchers role.allow m.traits with
    | error e =>
      rw [ha] at h
      simp [Bind.bind, Except.bind] at h
    | ok am =>
      rw [ha] at h
      simp only [Bind.bind, Except.bind, Pure.pure, Except.pure, Except.ok.injEq] at h
      exact ⟨dm, am, rfl, rfl, by rw [← h], by rw [← h], by rw [← h], by rw [← h],
        by rw [← h], by rw [← h]⟩

/-- Dissects a successful two-element `pushList` into its two pushes. -/
theorem pushList_pair {v : requestValidator} {r1 r2 : Role} {w : requestValidator}
    (h : pushList v [r1, r2] = Except.ok w) :
    ∃ v1, push v r1 = Except.ok v1 ∧ push v1 r2 = Except.ok w := by
  unfold pushList at h
  simp only [List.foldlM] at h
  cases h1 : push v r1 with
  | error e =>
    rw [h1] at h
    simp [Bind.bind, Except.bind] at h
  | ok v1 =>
    rw [h1] at h
    simp only [Bind.bind, Except.bind] at h
    cases h2 : push v1 r2 with
    | error e =>
      rw [h2] at h
      simp [Pure.pure, Except.pure] at h
    | ok v2 =>
      rw [h2] at h
      simp only [Pure.pure, Except.pure, Except.ok.injEq] at h
      exact ⟨v1, rfl, by rw [h2, h]⟩

/-- C1. For every aggregator state reached by pushing any sequence of roles
and for every role name, `CanRequestRole` returns false if any matcher in
`Roles.Deny` matches the name; otherwise it returns true if and only if
some matcher in `Roles.Allow` matches it: a name matching both sides is
denied, and a name matching no allow matcher is denied by default. -/
theorem canRequestRole_deny_overrides (traits : Traits) (st : RequestState)
    (roles : List Role) (m : requestValidator) (nm : String)
    (h : pushList (newRequestValidator traits st) roles = Except.ok m) :
    (m.rolesDeny.any (fun d => d.Match nm) = true → CanRequestRole m nm = false) ∧
    (m.rolesDeny.any (fun d => d.Match nm) = false →
      CanRequestRole m nm = m.rolesAllow.any (fun a => a.Match nm)) := by
  unfold CanRequestRole
  constructor
  · intro hd
    simp [hd]
  · intro hd
    simp [hd]

/-- Witness for C1: the state reached by pushing `roleDev` into a fresh
validator satisfies the deny-overrides characterisation at `dev-infra`. -/
theorem canRequestRole_deny_overrides_witness :
    ((valDev.rolesDeny.any (fun d => d.Match "dev-infra") = true →
        CanRequestRole valDev "dev-infra" = false) ∧
     (valDev.rolesDeny.any (fun d => d.Match "dev-infra") = false →
        CanRequestRole valDev "dev-infra" =
          valDev.rolesAllow.any (fun a => a.Match "dev-infra"))) :=
  canRequestRole_deny_overrides [] RequestState.PENDING [roleDev] valDev "dev-infra" rfl

/-- C4. On a request whose current state is DENIED, `SetState` succeeds and
returns the request unchanged (state still DENIED) exactly when the target
is DENIED; any other target yields a BadParameter error, and the stored
state is untouched (the error path never writes the receiver). -/
theorem setState_denied_monotone (r : AccessRequestV3) (target : RequestState)
    (h : r.Spec.State = RequestState.DENIED) :
    (target = RequestState.DENIED → r.SetState target = Except.ok r) ∧
    (target ≠ RequestState.DENIED → r.SetState target =
      Except.error (Err.badParameter
        ("cannot set request-state \"" ++ target.stateName ++ "\" (already denied)"))) := by
  unfold AccessRequestV3.SetState
  simp only [RequestState.IsDenied, h]
  constructor
  · intro ht
    simp [ht]
  · intro ht
    have : (target == RequestState.DENIED) = false := by
      simpa using ht
    simp [this]

/-- Witness for C4: a DENIED request accepts a repeated DENIED transition
and rejects APPROVED. -/
theorem setState_denied_monotone_witness :
    ((RequestState.APPROVED = RequestState.DENIED →
        reqDenied.SetState RequestState.APPROVED = Except.ok reqDenied) ∧
     (RequestState.APPROVED ≠ RequestState.DENIED →
        reqDenied.SetState RequestState.APPROVED = Except.error (Err.badParameter
          ("cannot set request-state \"" ++ RequestState.APPROVED.stateName ++
            "\" (already denied)")))) :=
  setState_denied_monotone reqDenied RequestState.APPROVED rfl

/-- C10. For every filter (its state being one of the four defined request
states, which the embedding's state type enumerates), decoding the map
encoded from it into a zero-valued filter succeeds and yields a filter that
`Equals` the original. -/
theorem filter_map_roundtrip (f : AccessRequestFilter) :
    ∃ g, AccessRequestFilter.FromMap zeroFilter f.IntoMap = Except.ok g ∧
      g.Equals f = true := by
  obtain ⟨id, user, st⟩ := f
  refine ⟨⟨id, user, st⟩, ?_, ?_⟩
  · by_cases hid : id = "" <;> by_cases huser : user = "" <;> cases st <;>
      simp [AccessRequestFilter.FromMap, AccessRequestFilter.IntoMap,
        AccessRequestFilter.fromMapEntry, zeroFilter, RequestState.IsNone,
        RequestState.stateName, RequestState.parse, stateVariants,
        keyID, keyUser, keyState, hid, huser, Bind.bind, Pure.pure, Except.bind, Except.pure]
  · simp [AccessRequestFilter.Equals]

/-- C9. While the aggregator is PENDING, an annotation value template whose
trait interpolation fails is skipped silently during `push`: it contributes
no values for its key, and `push` still succeeds (so the enclosing
validation is not aborted by it). -/
theorem push_skips_failed_template (m : requestValidator) (role : Role)
    (t : ValueTemplate) (ts : List ValueTemplate) (k : String)
    (dm am : List Matcher) (e : Err)
    (hpend : m.state.IsPending = true)
    (hdm : conditionMatchers role.deny m.traits = Except.ok dm)
    (ham : conditionMatchers role.allow m.traits = Except.ok am)
    (hann : (k, t :: ts) ∈ role.allow.Annotations)
    (hfail : applyValueTraits t m.traits = Except.error e) :
    (∃ w, push m role = Except.ok w) ∧
      expandTemplates (t :: ts) m.traits = expandTemplates ts m.traits := by
  constructor
  · unfold push
    rw [hdm, ham]
    exact ⟨_, rfl⟩
  · unfold expandTemplates
    rw [List.flatMap_cons, hfail]
    simp

/-- Witness for C9: pushing a role whose `team` annotation references the
unbound trait `team` into a fresh PENDING validator succeeds, and the
failing template contributes nothing. -/
theorem push_skips_failed_template_witness :
    (∃ w, push valPend roleAnn = Except.ok w) ∧
      expandTemplates [ValueTemplate.traitRef "team"] valPend.traits =
        expandTemplates [] valPend.traits :=
  push_skips_failed_template valPend roleAnn (ValueTemplate.traitRef "team") [] "team" [] []
    (Err.badParameter ("unknown trait: " ++ "team")) rfl rfl rfl (List.Mem.head _) rfl

/-- C5. For any two roles and any role name, pushing them in either order
into a fresh validator with the same traits and state yields the same
`CanRequestRole` verdict, provided both push sequences succeed. -/
theorem push_order_independent (traits : Traits) (st : RequestState) (r1 r2 : Role)
    (nm : String) (m12 m21 : requestValidator)
    (h12 : pushList (newRequestValidator traits st) [r1, r2] = Except.ok m12)
    (h21 : pushList (newRequestValidator traits st) [r2, r1] = Except.ok m21) :
    CanRequestRole m12 nm = CanRequestRole m21 nm := by
  obtain ⟨v1, hp1, hp2⟩ := pushList_pair h12
  obtain ⟨u1, hq1, hq2⟩ := pushList_pair h21
  obtain ⟨d1, a1, hd1, ha1, ht1, _, hD1, hA1, _, _⟩ := push_ok_elim hp1
  obtain ⟨d2, a2, hd2, ha2, ht2, _, hD2, hA2, _, _⟩ := push_ok_elim hp2
  obtain ⟨d2', a2', hd2', ha2', ht2', _, hD2', hA2', _, _⟩ := push_ok_elim hq1
  obtain ⟨d1', a1', hd1', ha1', ht1', _, hD1', hA1', _, _⟩ := push_ok_elim hq2
  have htv : v1.traits = traits := ht1
  have htu : u1.traits = traits := ht2'
  rw [htv] at hd2 ha2
  rw [htu] at hd1' ha1'
  have htw : (newRequestValidator traits st).traits = traits := rfl
  rw [htw] at hd1 ha1 hd2' ha2'
  have ed2 : d2' = d2 := by
    rw [hd2'] at hd2
    exact (Except.ok.injEq _ _).mp hd2
  have ea2 : a2' = a2 := by
    rw [ha2'] at ha2
    exact (Except.ok.injEq _ _).mp ha2
  have ed1 : d1' = d1 := by
    rw [hd1'] at hd1
    exact (Except.ok.injEq _ _).mp hd1
  have ea1 : a1' = a1 := by
    rw [ha1'] at ha1
    exact (Except.ok.injEq _ _).mp ha1
  have hm12d : m12.rolesDeny = d1 ++ d2 := by
    rw [hD2, hD1]
    simp [newRequestValidator]
  have hm12a : m12.rolesAllow = a1 ++ a2 := by
    rw [hA2, hA1]
    simp [newRequestValidator]
  have hm21d : m21.rolesDeny = d2 ++ d1 := by
    rw [hD1', hD2', ed2, ed1]
    simp [newRequestValidator]
  have hm21a : m21.rolesAllow = a2 ++ a1 := by
    rw [hA1', hA2', ea2, ea1]
    simp [newRequestValidator]
  unfold CanRequestRole
  rw [hm12d, hm12a, hm21d, hm21a]
  simp only [List.any_append]
  rw [Bool.or_comm (d1.any fun d => d.Match nm), Bool.or_comm (a1.any fun a => a.Match nm)]

/-- Witness for C5: pushing `roleDev` and `roleSecret` in both orders gives
the same verdict on `dev-infra`. -/
theorem push_order_independent_witness :
    CanRequestRole valBoth "dev-infra" = CanRequestRole valBoth "dev-infra" :=
  push_order_independent [] RequestState.PENDING roleDev roleSecret "dev-infra"
    valBoth valBoth rfl rfl

/-- If the keys of an association list are distinct, membership of an entry
determines the map read at its key. -/
theorem amGet_of_mem {l : List (String × List String)} {k : String} {v : List String}
    (hnd : (l.map Prod.fst).Nodup) (h : (k, v) ∈ l) : amGet l k = v := by
  induction l with
  | nil => cases h
  | cons p tl ih =>
    obtain ⟨k', v'⟩ := p
    rcases List.mem_cons.mp h with heq | htl
    · cases heq
      simp [amGet, List.find?]
    · have hk : k ∈ tl.map Prod.fst := List.mem_map.mpr ⟨(k, v), htl, rfl⟩
      have hk' : k' ∉ tl.map Prod.fst := by
        have hcons : (k' :: tl.map Prod.fst).Nodup := by simpa using hnd
        exact (List.nodup_cons.mp hcons).1
      have hne : (k' == k) = false := by
        simp only [beq_eq_false_iff_ne, ne_eq]
        intro hcontra
        exact hk' (hcontra ▸ hk)
      have htail : (tl.map Prod.fst).Nodup := by
        have hcons : (k' :: tl.map Prod.fst).Nodup := by simpa using hnd
        exact (List.nodup_cons.mp hcons).2
      have : amGet ((k', v') :: tl) k = amGet tl k := by
        simp [amGet, List.find?, hne]
      rw [this]
      exact ih htail htl

/-- With distinct keys, two entries sharing a key are the same entry. -/
theorem mem_unique_key {l : List (String × List String)} {k : String} {va vb : List String}
    (hnd : (l.map Prod.fst).Nodup) (ha : (k, va) ∈ l) (hb : (k, vb) ∈ l) : va = vb := by
  rw [← amGet_of_mem hnd ha, ← amGet_of_mem hnd hb]

/-- The map write `amAppend` preserves distinctness of keys. -/
theorem amAppend_nodup {m : List (String × List String)} {k : String} {vs : List String}
    (h : (m.map Prod.fst).Nodup) : ((amAppend m k vs).map Prod.fst).Nodup := by
  unfold amAppend
  by_cases hc : m.any (fun p => p.1 == k) = true
  · rw [if_pos hc]
    have hmap : (m.map (fun p => if p.1 == k then (p.1, p.2 ++ vs) else p)).map Prod.fst =
        m.map Prod.fst := by
      rw [List.map_map]
      apply List.map_congr_left
      intro p _
      simp only [Function.comp_apply]
      split <;> rfl
    rw [hmap]
    exact h
  · rw [if_neg hc]
    rw [List.map_append]
    have hk : k ∉ m.map Prod.fst := by
      intro hmem
      obtain ⟨p, hp, hpk⟩ := List.mem_map.mp hmem
      exact hc (List.any_eq_true.mpr ⟨p, hp, by simp [hpk]⟩)
    simp [List.nodup_append, h, hk]

/-- The annotation-accumulation loop preserves distinctness of keys. -/
theorem pushAnnotations_nodup {acc : List (String × List String)}
    {anns : List (String × List ValueTemplate)} {traits : Traits}
    (h : (acc.map Prod.fst).Nodup) :
    ((pushAnnotations acc anns traits).map Prod.fst).Nodup := by
  induction anns generalizing acc with
  | nil => exact h
  | cons kv rest ih =>
    unfold pushAnnotations
    rw [List.foldl_cons]
    exact ih (amAppend_nodup h)

/-- `push` preserves distinctness of the allow accumulator's keys. -/
theorem push_allow_nodup {m : requestValidator} {role : Role} {w : requestValidator}
    (h : push m role = Except.ok w) (ha : (m.annotationsAllow.map Prod.fst).Nodup) :
    (w.annotationsAllow.map Prod.fst).Nodup := by
  obtain ⟨_, _, _, _, _, _, _, _, hAllow, _⟩ := push_ok_elim h
  rw [hAllow]
  by_cases hp : m.state.IsPending = true
  · rw [if_pos hp]
    exact pushAnnotations_nodup ha
  · rw [if_neg hp]
    exact ha

/-- Every validator state reached by pushing a sequence of roles into a
fresh validator has distinct allow-annotation keys, so the well-formedness
hypothesis of the `SystemAnnotations` theorem holds for every reachable
state. -/
theorem pushList_allow_nodup (traits : Traits) (st : RequestState) (roles : List Role)
    (m : requestValidator)
    (h : pushList (newRequestValidator traits st) roles = Except.ok m) :
    (m.annotationsAllow.map Prod.fst).Nodup := by
  suffices hgen : ∀ (v : requestValidator), (v.annotationsAllow.map Prod.fst).Nodup →
      pushList v roles = Except.ok m → (m.annotationsAllow.map Prod.fst).Nodup by
    exact hgen (newRequestValidator traits st) (by simp [newRequestValidator]) h
  clear h
  induction roles with
  | nil =>
    intro v hv h
    unfold pushList at h
    simp only [List.foldlM, Pure.pure, Except.pure, Except.ok.injEq] at h
    rw [← h]
    exact hv
  | cons r rest ih =>
    intro v hv h
    unfold pushList at h
    simp only [List.foldlM] at h
    cases hp : push v r with
    | error e =>
      rw [hp] at h
      simp [Bind.bind, Except.bind] at h
    | ok v' =>
      rw [hp] at h
      simp only [Bind.bind, Except.bind] at h
      exact ih v' (push_allow_nodup hp hv) h

/-- C3. For every aggregator state with a well-formed (unique-key) allow
accumulator — an invariant of every state reached by pushing roles, by
`pushList_allow_nodup` — `SystemAnnotations` maps each allow key to exactly
the allow values absent from the deny values for that key, omits any key
whose filtered list is empty, and hence never returns a key whose whole
allow-value set is covered by the deny-value set. -/
theorem systemAnnotations_allow_minus_deny (m : requestValidator)
    (hnd : (m.annotationsAllow.map Prod.fst).Nodup) :
    (∀ k va, (k, va) ∈ m.annotationsAllow →
      (va.filter (fun v => !(amGet m.annotationsDeny k).contains v) ≠ [] →
        (k, va.filter (fun v => !(amGet m.annotationsDeny k).contains v)) ∈
          SystemAnnotations m) ∧
      (va.filter (fun v => !(amGet m.annotationsDeny k).contains v) = [] →
        ∀ vs, (k, vs) ∉ SystemAnnotations m)) ∧
    (∀ k vs, (k, vs) ∈ SystemAnnotations m →
      ∃ va, (k, va) ∈ m.annotationsAllow ∧
        vs = va.filter (fun v => !(amGet m.annotationsDeny k).contains v) ∧ vs ≠ []) ∧
    (∀ k vs, (k, vs) ∈ SystemAnnotations m →
      ∃ v, v ∈ amGet m.annotationsAllow k ∧ (amGet m.annotationsDeny k).contains v = false) := by
  have hext : ∀ k vs, (k, vs) ∈ SystemAnnotations m →
      ∃ va, (k, va) ∈ m.annotationsAllow ∧
        vs = va.filter (fun v => !(amGet m.annotationsDeny k).contains v) ∧ vs ≠ [] := by
    intro k vs hmem
    obtain ⟨kv, hkv, hf⟩ := List.mem_filterMap.mp hmem
    obtain ⟨k1, v1⟩ := kv
    by_cases hemp : (v1.filter (fun v => !(amGet m.annotationsDeny k1).contains v)).isEmpty = true
    · rw [if_pos hemp] at hf
      cases hf
    · rw [if_neg hemp] at hf
      obtain ⟨hk1, hk2⟩ := Prod.mk.injEq .. ▸ (Option.some.injEq _ _).mp hf
      subst hk1
      refine ⟨v1, hkv, hk2.symm, ?_⟩
      rw [← hk2]
      intro hcon
      rw [hcon] at hemp
      simp at hemp
  refine ⟨?_, hext, ?_⟩
  · intro k va hmem
    constructor
    · intro hne
      refine List.mem_filterMap.mpr ⟨(k, va), hmem, ?_⟩
      rw [if_neg ?_]
      · intro hcontra
        exact hne (List.isEmpty_iff.mp hcontra)
    · intro hemp vs hmem'
      obtain ⟨va', hva', heq, hne⟩ := hext k vs hmem'
      have : va' = va := mem_unique_key hnd hva' hmem
      rw [this, hemp] at heq
      exact hne heq
  · intro k vs hmem
    obtain ⟨va, hva, heq, hne⟩ := hext k vs hmem
    obtain ⟨v, hv⟩ := List.exists_mem_of_ne_nil vs hne
    have hvfil : v ∈ va.filter (fun w => !(amGet m.annotationsDeny k).contains w) := heq ▸ hv
    have hv2 := List.mem_filter.mp hvfil
    refine ⟨v, ?_, ?_⟩
    · rw [amGet_of_mem hnd hva]
      exact hv2.1
    · simpa using hv2.2

/-- Witness for C3: the allow-minus-deny characterisation holds on a
concrete accumulator pair. -/
theorem systemAnnotations_allow_minus_deny_witness :
    (∀ k va, (k, va) ∈ valAnn.annotationsAllow →
      (va.filter (fun v => !(amGet valAnn.annotationsDeny k).contains v) ≠ [] →
        (k, va.filter (fun v => !(amGet valAnn.annotationsDeny k).contains v)) ∈
          SystemAnnotations valAnn) ∧
      (va.filter (fun v => !(amGet valAnn.annotationsDeny k).contains v) = [] →
        ∀ vs, (k, vs) ∉ SystemAnnotations valAnn)) ∧
    (∀ k vs, (k, vs) ∈ SystemAnnotations valAnn →
      ∃ va, (k, va) ∈ valAnn.annotationsAllow ∧
        vs = va.filter (fun v => !(amGet valAnn.annotationsDeny k).contains v) ∧ vs ≠ []) ∧
    (∀ k vs, (k, vs) ∈ SystemAnnotations valAnn →
      ∃ v, v ∈ amGet valAnn.annotationsAllow k ∧
        (amGet valAnn.annotationsDeny k).contains v = false) :=
  systemAnnotations_allow_minus_deny valAnn (by simp [valAnn])

/-! ### Projection lemmas for the request mutators -/

@[simp]
theorem setRoles_User (r : AccessRequestV3) (ro : List String) :
    (r.SetRoles ro).Spec.User = r.Spec.User := rfl

@[simp]
theorem setRoles_State (r : AccessRequestV3) (ro : List String) :
    (r.SetRoles ro).Spec.State = r.Spec.State := rfl

@[simp]
theorem setRoles_Reason (r : AccessRequestV3) (ro : List String) :
    (r.SetRoles ro).Spec.RequestReason = r.Spec.RequestReason := rfl

@[simp]
theorem setRoles_Roles (r : AccessRequestV3) (ro : List String) :
    (r.SetRoles ro).Spec.Roles = ro := rfl

@[simp]
theorem setSysAnn_User (r : AccessRequestV3) (x : List (String × List String)) :
    (r.SetSystemAnnotations x).Spec.User = r.Spec.User := rfl

@[simp]
theorem setSysAnn_State (r : AccessRequestV3) (x : List (String × List String)) :
    (r.SetSystemAnnotations x).Spec.State = r.Spec.State := rfl

@[simp]
theorem setSysAnn_Reason (r : AccessRequestV3) (x : List (String × List String)) :
    (r.SetSystemAnnotations x).Spec.RequestReason = r.Spec.RequestReason := rfl

@[simp]
theorem setSysAnn_Roles (r : AccessRequestV3) (x : List (String × List String)) :
    (r.SetSystemAnnotations x).Spec.Roles = r.Spec.Roles := rfl

theorem setSysAnn_idem (r : AccessRequestV3) (x : List (String × List String)) :
    (r.SetSystemAnnotations x).SetSystemAnnotations x = r.SetSystemAnnotations x := rfl

/-! ### Lemmas about the user-role loop -/

/-- Once the require-reason flag is set it stays set to the end of the
loop. -/
theorem pushRoles_true {getter : UserAndRoleGetter} {v w : requestValidator} {rr : Bool}
    {names : List String} (h : pushRoles getter v true names = Except.ok (w, rr)) :
    rr = true := by
  induction names generalizing v with
  | nil =>
    simp only [pushRoles, Except.ok.injEq, Prod.mk.injEq] at h
    exact h.2.symm
  | cons a rest ih =>
    unfold pushRoles at h
    cases hga : getter.getRole a with
    | error e =>
      rw [hga] at h
      exact Except.noConfusion h
    | ok rA =>
      rw [hga] at h
      dsimp only at h
      cases hpa : push v rA with
      | error e =>
        rw [hpa] at h
        exact Except.noConfusion h
      | ok v' =>
        rw [hpa] at h
        simp only [Bool.true_or] at h
        exact ih h

/-- If some processed role name resolves to a role whose `RequestAccess`
option is the reason strategy, the loop reports that a reason is
required. -/
theorem pushRoles_requires_reason {getter : UserAndRoleGetter} {v w : requestValidator}
    {b rr : Bool} {names : List String} {n : String} {role : Role}
    (h : pushRoles getter v b names = Except.ok (w, rr)) (hn : n ∈ names)
    (hrole : getter.getRole n = Except.ok role)
    (hstrat : role.requestAccess = RequestStrategyReason) : rr = true := by
  induction names generalizing v b with
  | nil => cases hn
  | cons a rest ih =>
    unfold pushRoles at h
    cases hga : getter.getRole a with
    | error e =>
      rw [hga] at h
      exact Except.noConfusion h
    | ok rA =>
      rw [hga] at h
      dsimp only at h
      cases hpa : push v rA with
      | error e =>
        rw [hpa] at h
        exact Except.noConfusion h
      | ok v' =>
        rw [hpa] at h
        rcases List.mem_cons.mp hn with heq | htl
        · subst heq
          have hra : rA = role := by
            rw [hga] at hrole
            exact (Except.ok.injEq _ _).mp hrole
          have hb : (b || (rA.requestAccess == RequestStrategyReason)) = true := by
            rw [hra, hstrat]
            simp
          rw [hb] at h
          exact pushRoles_true h
        · exact ih h htl

/-! ### Theorems about `ValidateAccessRequest` -/

/-- C7. If some role held by the requesting user resolves to a role whose
`RequestAccess` option is the reason strategy and the request's reason is
empty, validation fails with BadParameter "request reason must be
specified" — for any `expandRoles` flag and any requested role list, since
the check precedes wildcard resolution and the per-role admission check. -/
theorem validate_requires_reason (getter : UserAndRoleGetter) (req : AccessRequestV3)
    (user : User) (v : requestValidator) (rr : Bool) (expandRoles : Bool)
    (n : String) (role : Role)
    (hu : getter.getUser req.Spec.User = Except.ok user)
    (hp : pushRoles getter (newRequestValidator user.traits req.Spec.State) false user.roles =
      Except.ok (v, rr))
    (hn : n ∈ user.roles)
    (hrole : getter.getRole n = Except.ok role)
    (hstrat : role.requestAccess = RequestStrategyReason)
    (hempty : req.Spec.RequestReason = "") :
    ValidateAccessRequest getter req expandRoles =
      Except.error (Err.badParameter "request reason must be specified") := by
  have hrr : rr = true := pushRoles_requires_reason hp hn hrole hstrat
  subst hrr
  simp [ValidateAccessRequest, hu, hp, hempty]

/-- C6. A wildcard request (role list exactly the single entry star)
validated with `expandRoles = false` fails with BadParameter "unexpected
wildcard access request"; the embedding returns only the error, so the
request's role list and annotations are untouched. -/
theorem validate_wildcard_rejected (getter : UserAndRoleGetter) (req : AccessRequestV3)
    (user : User) (v : requestValidator) (rr : Bool)
    (hu : getter.getUser req.Spec.User = Except.ok user)
    (hp : pushRoles getter (newRequestValidator user.traits req.Spec.State) false user.roles =
      Except.ok (v, rr))
    (hr : (rr && (req.Spec.RequestReason == "")) = false)
    (hw : req.Spec.Roles = ["*"]) :
    ValidateAccessRequest getter req false =
      Except.error (Err.badParameter "unexpected wildcard access request") := by
  simp [ValidateAccessRequest, hu, hp, hr, hw, isWildcard]

/-- Every name produced by the wildcard expansion is approved by the
aggregator. -/
theorem expandWildcard_can {user : User} {allRoles : List Role} {v : requestValidator}
    {nm : String} (h : nm ∈ expandWildcard user allRoles v) : CanRequestRole v nm = true := by
  obtain ⟨role, _, hif⟩ := List.mem_filterMap.mp h
  by_cases hc : (!(user.roles.contains role.name) && CanRequestRole v role.name) = true
  · rw [if_pos hc] at hif
    have hnm : role.name = nm := Option.some.inj hif
    have hcan := (Bool.and_eq_true _ _).mp hc
    rw [← hnm]
    exact hcan.2
  · rw [if_neg hc] at hif
    exact Option.noConfusion hif

/-- Membership in the wildcard expansion, characterised. -/
theorem mem_expandWildcard {user : User} {allRoles : List Role} {v : requestValidator}
    {nm : String} : nm ∈ expandWildcard user allRoles v ↔
      ∃ role, role ∈ allRoles ∧ role.name = nm ∧
        user.roles.contains nm = false ∧ CanRequestRole v nm = true := by
  constructor
  · intro h
    obtain ⟨role, hmem, hif⟩ := List.mem_filterMap.mp h
    by_cases hc : (!(user.roles.contains role.name) && CanRequestRole v role.name) = true
    · rw [if_pos hc] at hif
      have hnm : role.name = nm := Option.some.inj hif
      have hcan := (Bool.and_eq_true _ _).mp hc
      refine ⟨role, hmem, hnm, ?_, hnm ▸ hcan.2⟩
      rw [← hnm]
      simpa using hcan.1
    · rw [if_neg hc] at hif
      exact Option.noConfusion hif
  · intro ⟨role, hmem, hnm, hheld, hcan⟩
    refine List.mem_filterMap.mpr ⟨role, hmem, ?_⟩
    rw [if_pos ?_]
    · rw [hnm]
    · rw [hnm, hheld, hcan]
      rfl

/-- C2. Validating a wildcard request with `expandRoles = true` succeeds
(even when the replacement list is empty) and replaces the role list with
exactly the catalogue role names that are not already held by the user and
are approved by `CanRequestRole`. -/
theorem validate_wildcard_expansion (getter : UserAndRoleGetter) (req : AccessRequestV3)
    (user : User) (v : requestValidator) (rr : Bool) (allRoles : List Role)
    (hu : getter.getUser req.Spec.User = Except.ok user)
    (hp : pushRoles getter (newRequestValidator user.traits req.Spec.State) false user.roles =
      Except.ok (v, rr))
    (hr : (rr && (req.Spec.RequestReason == "")) = false)
    (hw : req.Spec.Roles = ["*"])
    (hall : getter.getRoles = Except.ok allRoles) :
    ∃ req', ValidateAccessRequest getter req true = Except.ok req' ∧
      req'.Spec.Roles = expandWildcard user allRoles v ∧
      (∀ nm, nm ∈ req'.Spec.Roles ↔
        ∃ role, role ∈ allRoles ∧ role.name = nm ∧
          user.roles.contains nm = false ∧ CanRequestRole v nm = true) := by
  have hfind : (expandWildcard user allRoles v).find? (fun nm => !CanRequestRole v nm) = none := by
    apply List.find?_eq_none.mpr
    intro nm hmem
    simp [expandWildcard_can hmem]
  by_cases hpend : req.Spec.State.IsPending = true
  · refine ⟨(req.SetRoles (expandWildcard user allRoles v)).SetSystemAnnotations
        (SystemAnnotations v), ?_, ?_, ?_⟩
    · simp [ValidateAccessRequest, hu, hp, hr, hw, isWildcard, hall, hfind, hpend]
    · simp
    · intro nm
      rw [setSysAnn_Roles, setRoles_Roles]
      exact mem_expandWildcard
  · refine ⟨req.SetRoles (expandWildcard user allRoles v), ?_, ?_, ?_⟩
    · simp [ValidateAccessRequest, hu, hp, hr, hw, isWildcard, hall, hfind, hpend]
    · simp
    · intro nm
      rw [setRoles_Roles]
      exact mem_expandWildcard

/-- Dissects a successful validation: the user lookup and role pushes
succeeded, the reason check passed, and the result is the
(possibly expanded) request `q`, annotated while PENDING, with every role
in `q` approved. -/
theorem validate_ok_elim {getter : UserAndRoleGetter} {req : AccessRequestV3} {ex : Bool}
    {res : AccessRequestV3} (h : ValidateAccessRequest getter req ex = Except.ok res) :
    ∃ (user : User) (v : requestValidator) (rr : Bool) (q : AccessRequestV3),
      getter.getUser req.Spec.User = Except.ok user ∧
      pushRoles getter (newRequestValidator user.traits req.Spec.State) false user.roles =
        Except.ok (v, rr) ∧
      (rr && (req.Spec.RequestReason == "")) = false ∧
      q.Spec.User = req.Spec.User ∧ q.Spec.State = req.Spec.State ∧
      q.Spec.RequestReason = req.Spec.RequestReason ∧
      q.Spec.Roles.find? (fun nm => !CanRequestRole v nm) = none ∧
      res = (if q.Spec.State.IsPending then
        q.SetSystemAnnotations (SystemAnnotations v) else q) := by
  unfold ValidateAccessRequest at h
  cases hu : getter.getUser req.Spec.User with
  | error e' =>
    rw [hu] at h
    exact Except.noConfusion h
  | ok user =>
    rw [hu] at h
    dsimp only at h
    cases hp : pushRoles getter (newRequestValidator user.traits req.Spec.State) false
        user.roles with
    | error e' =>
      rw [hp] at h
      exact Except.noConfusion h
    | ok pr =>
      obtain ⟨v, rr⟩ := pr
      rw [hp] at h
      dsimp only at h
      by_cases hreason : (rr && (req.Spec.RequestReason == "")) = true
      · rw [if_pos hreason] at h
        exact Except.noConfusion h
      · rw [if_neg hreason] at h
        have hrf : (rr && (req.Spec.RequestReason == "")) = false := by
          simpa using hreason
        cases hiw : isWildcard req.Spec.Roles with
        | false =>
          rw [hiw] at h
          rw [if_neg (by simp)] at h
          dsimp only at h
          cases hf : req.Spec.Roles.find? (fun nm => !CanRequestRole v nm) with
          | some nm =>
            rw [hf] at h
            exact Except.noConfusion h
          | none =>
            rw [hf] at h
            dsimp only at h
            exact ⟨user, v, rr, req, rfl, hp, hrf, rfl, rfl, rfl, hf,
              ((Except.ok.injEq _ _).mp h).symm⟩
        | true =>
          rw [hiw] at h
          rw [if_pos rfl] at h
          cases ex with
          | false =>
            rw [if_pos (by decide : (!false) = true)] at h
            exact Except.noConfusion h
          | true =>
            rw [if_neg (by simp)] at h
            cases hall : getter.getRoles with
            | error e' =>
              rw [hall] at h
              exact Except.noConfusion h
            | ok allRoles =>
              rw [hall] at h
              dsimp only at h
              cases hf : (req.SetRoles (expandWildcard user allRoles v)).Spec.Roles.find?
                  (fun nm => !CanRequestRole v nm) with
              | some nm =>
                rw [hf] at h
                exact Except.noConfusion h
              | none =>
                rw [hf] at h
                dsimp only at h
                exact ⟨user, v, rr, req.SetRoles (expandWildcard user allRoles v), rfl, hp,
                  hrf, rfl, rfl, rfl, hf, ((Except.ok.injEq _ _).mp h).symm⟩

/-- C8. Re-validating a request that a previous successful validation
already expanded and annotated (its role list no longer the wildcard
marker) succeeds and changes nothing: the returned request — role list and
system annotations included — is the input unchanged. -/
theorem validate_revalidation_noop (getter : UserAndRoleGetter) (req req1 : AccessRequestV3)
    (e1 e2 : Bool)
    (h1 : ValidateAccessRequest getter req e1 = Except.ok req1)
    (hnw : isWildcard req1.Spec.Roles = false) :
    ValidateAccessRequest getter req1 e2 = Except.ok req1 := by
  obtain ⟨user, v, rr, q, hu, hp, hrf, hqU, hqS, hqR, hqfind, hres⟩ := validate_ok_elim h1
  have hproj : req1.Spec.User = q.Spec.User ∧ req1.Spec.State = q.Spec.State ∧
      req1.Spec.RequestReason = q.Spec.RequestReason ∧ req1.Spec.Roles = q.Spec.Roles := by
    rw [hres]
    by_cases hc : q.Spec.State.IsPending = true
    · simp [hc]
    · simp only [Bool.not_eq_true] at hc
      simp [hc]
  have hU : req1.Spec.User = req.Spec.User := hproj.1.trans hqU
  have hS : req1.Spec.State = req.Spec.State := hproj.2.1.trans hqS
  have hR : req1.Spec.RequestReason = req.Spec.RequestReason := hproj.2.2.1.trans hqR
  have hRoles : req1.Spec.Roles = q.Spec.Roles := hproj.2.2.2
  unfold ValidateAccessRequest
  rw [hU, hu]
  dsimp only
  rw [hS, hp]
  dsimp only
  rw [hR, if_neg (by rw [hrf]; exact Bool.false_ne_true)]
  rw [hnw, if_neg (by simp)]
  dsimp only
  rw [hRoles, hqfind]
  dsimp only
  by_cases hpend : q.Spec.State.IsPending = true
  · have hpend1 : req1.Spec.State.IsPending = true := by
      rw [hproj.2.1]
      exact hpend
    rw [if_pos hpend1]
    have hr1 : req1 = q.SetSystemAnnotations (SystemAnnotations v) := by
      rw [hres, if_pos hpend]
    rw [hr1, setSysAnn_idem]
  · have hpend1 : req1.Spec.State.IsPending ≠ true := by
      rw [hproj.2.1]
      exact hpend
    rw [if_neg hpend1]

/-- Witness for C7: bob's validation with an empty reason fails with the
reason error. -/
theorem validate_requires_reason_witness :
    ValidateAccessRequest getterW reqBob false =
      Except.error (Err.badParameter "request reason must be specified") :=
  validate_requires_reason getterW reqBob userBob valPend true false "rr" roleNeedsReason
    rfl rfl (List.Mem.head _) rfl rfl rfl

/-- Witness for C6: alice's wildcard request without expansion permission
fails with the wildcard error. -/
theorem validate_wildcard_rejected_witness :
    ValidateAccessRequest getterW reqWild false =
      Except.error (Err.badParameter "unexpected wildcard access request") :=
  validate_wildcard_rejected getterW reqWild userAlice valDev false rfl rfl rfl rfl

/-- Witness for C2: alice's wildcard request with expansion permission
succeeds and expands against the catalogue. -/
theorem validate_wildcard_expansion_witness :
    ∃ req', ValidateAccessRequest getterW reqWild true = Except.ok req' ∧
      req'.Spec.Roles = expandWildcard userAlice [roleBase, roleCatDev] valDev ∧
      (∀ nm, nm ∈ req'.Spec.Roles ↔
        ∃ role, role ∈ [roleBase, roleCatDev] ∧ role.name = nm ∧
          userAlice.roles.contains nm = false ∧ CanRequestRole valDev nm = true) :=
  validate_wildcard_expansion getterW reqWild userAlice valDev false [roleBase, roleCatDev]
    rfl rfl rfl rfl rfl

/-- Witness for C8: re-validating alice's already-validated request is a
no-op. -/
theorem validate_revalidation_noop_witness :
    ValidateAccessRequest getterW reqOk true = Except.ok reqOk :=
  validate_revalidation_noop getterW reqOk reqOk false true rfl rfl

end Teleport
